import Mathlib

/-!
A verification development for breakpad's
`src/processor/disassembler_objdump.cc` (the instruction-text tokenizer and
the memory-operand address evaluator for x86 / x86-64).

The shallow embedding translates the source functions into executable Lean
definitions:

* `TokenizeInstruction` embeds `DisassemblerObjdump::TokenizeInstruction`,
  including its token split (`std::regex "((?:[^\s,]+)|,)(?:\s)*"` over the
  instruction line, i.e. maximal runs of non-whitespace/non-comma characters
  plus standalone commas) and its sequential state machine.
* `GetRegisterValue` / `GetSegmentAddress` embed the per-architecture
  register/segment resolver if/else chains.
* `parseExpression` embeds the anchored operand regex
  `^(?:(\ws):)?\[(\w+)(?:\+(\w+)(?:\*(\d+)))?(?:([\+-])(0x[0-9a-f]+))?\]$`
  as a deterministic parser (the regex is deterministic on every input:
  each repeated character class is followed by a character outside that
  class, so maximal munch is forced, and each optional group's consumed
  text can never be re-parsed by the alternatives that follow it).
* `CalculateAddress` embeds `DisassemblerObjdump::CalculateAddress`, with
  unsigned 64-bit arithmetic written as `Nat` arithmetic `% 2^64`.
* `strtoull0` embeds `strtoull(s, nullptr, 0)` on the strings reachable
  from the operand grammar (plain digit strings and `0x` hex strings):
  base auto-detection (leading `0x` is hex, other leading `0` is octal),
  stopping at the first character invalid for the detected base, clamped
  to `ULLONG_MAX` on overflow.

Failure (a C++ `false` return) is modelled as `none`.
-/

namespace Breakpad

/-- `2^64`, the modulus of C `uint64_t` arithmetic. -/
def U64 : Nat := 2 ^ 64

/-- `ULLONG_MAX`, the value `strtoull` returns on overflow. -/
def ULLONG_MAX : Nat := 2 ^ 64 - 1

/-- ECMAScript `\s` on ASCII input: space, tab, vertical tab, form feed,
line feed, carriage return. -/
def isWs (c : Char) : Bool :=
  c = ' ' ∨ c = '\t' ∨ c = '\n' ∨ c = '\r' ∨ c.toNat = 11 ∨ c.toNat = 12

/-- ECMAScript `\w`: `[A-Za-z0-9_]`. -/
def isWordChar (c : Char) : Bool :=
  (('a' ≤ c ∧ c ≤ 'z') ∨ ('A' ≤ c ∧ c ≤ 'Z') ∨ c.isDigit ∨ c = '_' : Prop)

/-- A character of the class `[^\s,]` used by the tokenizing regex. -/
def isTokChar (c : Char) : Bool :=
  if isWs c then false else if c = ',' then false else true

/-- Lower-case hex digit, the class `[0-9a-f]` of the offset regex. -/
def isHexLower (c : Char) : Bool :=
  c.isDigit ∨ ('a' ≤ c ∧ c ≤ 'f')

/-- Octal digit, for `strtoull`'s base auto-detection. -/
def isOctDigit (c : Char) : Bool :=
  '0' ≤ c ∧ c ≤ '7'

/-- Numeric value of a digit character (valid for decimal and octal digits). -/
def digitVal (c : Char) : Nat := c.toNat - 48

/-- Numeric value of a lower-case hex digit character. -/
def hexVal (c : Char) : Nat :=
  if c.isDigit then c.toNat - 48 else c.toNat - 87

/-- Horner accumulation of digits in base `b`, stopping at the first
character that is not a digit of the base — as `strtoull` does. -/
def parseRun (isD : Char → Bool) (val : Char → Nat) (b : Nat) :
    List Char → Nat → Nat
  | [], acc => acc
  | c :: cs, acc => if isD c then parseRun isD val b cs (acc * b + val c) else acc

/-- `strtoull(s, nullptr, 0)` on the strings produced by the operand
grammar: `0x`-prefixed lower-case hex, otherwise a leading `0` selects
octal, otherwise decimal; parsing stops at the first invalid digit and the
mathematical value is clamped to `ULLONG_MAX`. -/
def strtoull0 (s : String) : Nat :=
  let n :=
    match s.data with
    | '0' :: 'x' :: cs => parseRun isHexLower hexVal 16 cs 0
    | '0' :: cs => parseRun isOctDigit digitVal 8 cs 0
    | cs => parseRun Char.isDigit digitVal 10 cs 0
  min n ULLONG_MAX

/-! ## Token split

`TokenizeInstruction` iterates the matches of
`std::regex "((?:[^\s,]+)|,)(?:\s)*"` over the instruction string: the
token sequence consists of maximal runs of `[^\s,]` characters and
standalone commas, in order.  The recursion is fuelled by the length of
the character list so that every definition stays structurally recursive
(and hence kernel-computable). -/

/-- One token-splitting step chain, fuelled. -/
def splitTokensF : Nat → List Char → List String
  | 0, _ => []
  | _ + 1, [] => []
  | fuel + 1, c :: rest =>
    if isWs c then splitTokensF fuel rest
    else if c = ',' then "," :: splitTokensF fuel rest
    else
      String.mk (c :: rest.takeWhile isTokChar) ::
        splitTokensF fuel (rest.dropWhile isTokChar)

/-- The token sequence of an instruction line: maximal `[^\s,]` runs and
standalone commas. -/
def splitTokens (l : List Char) : List String :=
  splitTokensF l.length l

/-- `IsInstructionPrefix` from the source. -/
def IsInstructionPrefix (token : String) : Bool :=
  token = "lock" ∨ token = "rep" ∨ token = "repz" ∨ token = "repnz"

/-- `IsOperandSize` from the source. -/
def IsOperandSize (token : String) : Bool :=
  token = "BYTE" ∨ token = "WORD" ∨ token = "DWORD" ∨ token = "QWORD" ∨
    token = "PTR"

/-- The token loop of `TokenizeInstruction`.  State: the `operation`,
`dest`, `src` output strings (the C++ code writes through references into
the caller's variables) and the `found_comma` flag.  The result carries
the final values of the outputs together with the success flag; on a hard
failure (`return false`) the outputs keep the values they had at that
point, which is what the caller's member variables observe. -/
def tokRun : List String → String → String → String → Bool →
    (String × String × String × Bool) × Bool
  | [], op, d, s, fc => ((op, d, s, fc), true)
  | t :: ts, op, d, s, fc =>
    if op = "" then
      if IsInstructionPrefix t then tokRun ts op d s fc
      else tokRun ts t d s fc
    else if d = "" then
      if IsOperandSize t then tokRun ts op d s fc
      else tokRun ts op t s fc
    else if fc = false then
      if t = "," then tokRun ts op d s true
      else ((op, d, s, fc), false)
    else if s = "" then
      if IsOperandSize t then tokRun ts op d s fc
      else tokRun ts op d t fc
    else
      if t = "," then ((op, d, s, fc), false)
      else tokRun ts op d s fc

/-- `DisassemblerObjdump::TokenizeInstruction`: `some (operation, dest,
src)` on success, `none` on a parse failure (including the final
"found comma but no src operand" check). -/
def TokenizeInstruction (instruction : String) :
    Option (String × String × String) :=
  match tokRun (splitTokens instruction.data) "" "" "" false with
  | ((op, d, s, fc), true) => if fc = true ∧ s = "" then none else some (op, d, s)
  | (_, false) => none

/-- The values left in the caller's `operation_`, `dest_`, `src_` members
after `TokenizeInstruction` ran over `instruction`, success or not. -/
def tokMembers (instruction : String) : String × String × String :=
  ((tokRun (splitTokens instruction.data) "" "" "" false).1.1,
   (tokRun (splitTokens instruction.data) "" "" "" false).1.2.1,
   (tokRun (splitTokens instruction.data) "" "" "" false).1.2.2.1)

/-! ## CPU contexts and the register/segment resolvers

Only the fields the source reads are modelled.  The AMD64 context carries
no segment fields: the source never reads any (the `fs`/`gs` accesses are
commented out), and the specification states the underlying context does
not capture them. -/

/-- The x86 context fields read by the source (`MDRawContextX86`). -/
structure ContextX86 where
  eax : Nat
  ebx : Nat
  ecx : Nat
  edx : Nat
  edi : Nat
  esi : Nat
  ebp : Nat
  esp : Nat
  eip : Nat
  ds : Nat
  es : Nat
  fs : Nat
  gs : Nat
deriving DecidableEq

/-- The AMD64 context fields read by the source (`MDRawContextAMD64`). -/
structure ContextAMD64 where
  rax : Nat
  rbx : Nat
  rcx : Nat
  rdx : Nat
  rdi : Nat
  rsi : Nat
  rbp : Nat
  rsp : Nat
  r8 : Nat
  r9 : Nat
  r10 : Nat
  r11 : Nat
  r12 : Nat
  r13 : Nat
  r14 : Nat
  r15 : Nat
  rip : Nat
deriving DecidableEq

/-- A `DumpContext` whose `GetContextCPU()` is `MD_CONTEXT_X86` or
`MD_CONTEXT_AMD64` (the only CPUs the source resolves). -/
inductive DumpContext where
  | x86 (c : ContextX86)
  | amd64 (c : ContextAMD64)
deriving DecidableEq

/-- `GetSegmentAddressX86` from the source. -/
def GetSegmentAddressX86 (c : ContextX86) (segment_name : String) : Option Nat :=
  if segment_name = "ds" then some c.ds
  else if segment_name = "es" then some c.es
  else if segment_name = "fs" then some c.fs
  else if segment_name = "gs" then some c.gs
  else none

/-- `GetSegmentAddressAMD64` from the source: `ds`/`es` resolve to the
constant 0, everything else (including `fs`/`gs`, whose context reads are
commented out in the source) fails. -/
def GetSegmentAddressAMD64 (_c : ContextAMD64) (segment_name : String) :
    Option Nat :=
  if segment_name = "ds" then some 0
  else if segment_name = "es" then some 0
  else none

/-- `GetSegmentAddress` from the source. -/
def GetSegmentAddress (context : DumpContext) (segment_name : String) :
    Option Nat :=
  match context with
  | .x86 c => GetSegmentAddressX86 c segment_name
  | .amd64 c => GetSegmentAddressAMD64 c segment_name

/-- `GetRegisterValueX86` from the source. -/
def GetRegisterValueX86 (c : ContextX86) (register_name : String) : Option Nat :=
  if register_name = "eax" then some c.eax
  else if register_name = "ebx" then some c.ebx
  else if register_name = "ecx" then some c.ecx
  else if register_name = "edx" then some c.edx
  else if register_name = "edi" then some c.edi
  else if register_name = "esi" then some c.esi
  else if register_name = "ebp" then some c.ebp
  else if register_name = "esp" then some c.esp
  else if register_name = "eip" then some c.eip
  else none

/-- `GetRegisterValueAMD64` from the source. -/
def GetRegisterValueAMD64 (c : ContextAMD64) (register_name : String) :
    Option Nat :=
  if register_name = "rax" then some c.rax
  else if register_name = "rbx" then some c.rbx
  else if register_name = "rcx" then some c.rcx
  else if register_name = "rdx" then some c.rdx
  else if register_name = "rdi" then some c.rdi
  else if register_name = "rsi" then some c.rsi
  else if register_name = "rbp" then some c.rbp
  else if register_name = "rsp" then some c.rsp
  else if register_name = "r8" then some c.r8
  else if register_name = "r9" then some c.r9
  else if register_name = "r10" then some c.r10
  else if register_name = "r11" then some c.r11
  else if register_name = "r12" then some c.r12
  else if register_name = "r13" then some c.r13
  else if register_name = "r14" then some c.r14
  else if register_name = "r15" then some c.r15
  else if register_name = "rip" then some c.rip
  else none

/-- `GetRegisterValue` from the source. -/
def GetRegisterValue (context : DumpContext) (register_name : String) :
    Option Nat :=
  match context with
  | .x86 c => GetRegisterValueX86 c register_name
  | .amd64 c => GetRegisterValueAMD64 c register_name

/-! ## The operand-expression grammar

`CalculateAddress` matches the operand against the anchored regex
`^(?:(\ws):)?\[(\w+)(?:\+(\w+)(?:\*(\d+)))?(?:([\+-])(0x[0-9a-f]+))?\]$`
and extracts the six capture groups as strings (an unmatched group
extracts as `""`).  The regex is deterministic: each `\w+`/`\d+`/hex run
is followed in the pattern by a character outside its class, so maximal
munch is the only viable match, and whenever an optional group matches
locally, the text it consumed can never also be matched by skipping the
group (the consumed text contains `:`/`*`/a sign in a position the skip
alternative would require `[`, `]` or hex), so greedy group selection is
forced.  `parseExpression` is that deterministic parse. -/

/-- The six capture groups of the operand regex, `""` for an absent
group — exactly the strings `match[1].str() .. match[6].str()` that
`CalculateAddress` extracts. -/
structure MemOpExpr where
  segment : String
  base : String
  indexName : String
  indexStride : String
  offsetSign : String
  offset : String
deriving DecidableEq

/-- The optional segment prefix `(?:(\ws):)?`: one word character, a
literal `s`, a literal `:`. -/
def splitSegment : List Char → String × List Char
  | a :: 's' :: ':' :: rest =>
    if isWordChar a then (String.mk [a, 's'], rest)
    else ("", a :: 's' :: ':' :: rest)
  | cs => ("", cs)

/-- The optional index group `(?:\+(\w+)(?:\*(\d+)))?`: returns the two
captures and the remaining text, or `("", "", cs)` when the group does not
match at this position. -/
def splitIndex (cs : List Char) : String × String × List Char :=
  match cs with
  | '+' :: rest =>
    match rest.dropWhile isWordChar with
    | '*' :: r2 =>
      if (rest.takeWhile isWordChar).isEmpty ∨
          (r2.takeWhile Char.isDigit).isEmpty then ("", "", '+' :: rest)
      else (String.mk (rest.takeWhile isWordChar),
        String.mk (r2.takeWhile Char.isDigit), r2.dropWhile Char.isDigit)
    | _ => ("", "", '+' :: rest)
  | _ => ("", "", cs)

/-- The optional offset group `(?:([\+-])(0x[0-9a-f]+))?`: returns the
sign capture and the offset capture (which includes the `0x` prefix, as
`match[6].str()` does) and the remaining text, or `("", "", cs)` when the
group does not match at this position. -/
def splitOffset (cs : List Char) : String × String × List Char :=
  match cs with
  | c :: '0' :: 'x' :: r2 =>
    if c = '+' ∨ c = '-' then
      if (r2.takeWhile isHexLower).isEmpty then ("", "", c :: '0' :: 'x' :: r2)
      else (String.mk [c], String.mk ('0' :: 'x' :: r2.takeWhile isHexLower),
        r2.dropWhile isHexLower)
    else ("", "", c :: '0' :: 'x' :: r2)
  | cs => ("", "", cs)

/-- The anchored match of the operand-expression regex: `some` of the six
capture groups when the whole string matches, `none` otherwise. -/
def parseExpression (s : String) : Option MemOpExpr :=
  match (splitSegment s.data).2 with
  | '[' :: cs2 =>
    if (cs2.takeWhile isWordChar).isEmpty then none
    else
      match (splitOffset (splitIndex (cs2.dropWhile isWordChar)).2.2).2.2 with
      | [']'] =>
        some ⟨(splitSegment s.data).1, String.mk (cs2.takeWhile isWordChar),
          (splitIndex (cs2.dropWhile isWordChar)).1,
          (splitIndex (cs2.dropWhile isWordChar)).2.1,
          (splitOffset (splitIndex (cs2.dropWhile isWordChar)).2.2).1,
          (splitOffset (splitIndex (cs2.dropWhile isWordChar)).2.2).2.1⟩
      | _ => none
  | _ => none

/-- `DisassemblerObjdump::CalculateAddress`: parse the operand expression,
resolve the segment (default 0), the base register, and the index register
(default 0), read the stride (default 1) and the offset (default 0) with
`strtoull(_, nullptr, 0)`, and combine with unsigned 64-bit arithmetic. -/
def CalculateAddress (context : DumpContext) (expression : String) :
    Option Nat :=
  match parseExpression expression with
  | none => none
  | some e =>
    match (if e.segment.length > 0 then GetSegmentAddress context e.segment
           else some 0) with
    | none => none
    | some segment_address =>
      match GetRegisterValue context e.base with
      | none => none
      | some register_value =>
        match (if e.indexName.length > 0 then GetRegisterValue context e.indexName
               else some 0) with
        | none => none
        | some index_value =>
          let index_stride_value :=
            if e.indexStride.length > 0 then strtoull0 e.indexStride else 1
          let offset_value :=
            if e.offset.length > 0 then strtoull0 e.offset else 0
          let address :=
            (segment_address + register_value +
              index_value * index_stride_value) % U64
          some (if e.offsetSign = "+" then (address + offset_value) % U64
                else if e.offsetSign = "-" then
                  (address + (U64 - offset_value)) % U64
                else address)

/-! ## The façade object

`DisassemblerObjdump`'s constructor bounds-checks the requested address
against the memory region, gathers up to 15 instruction bytes, runs the
external `objdump` subprocess (`DisassembleInstruction`), and tokenizes
the resulting text into the members `operation_`, `dest_`, `src_` (which
start out as empty strings and keep whatever `TokenizeInstruction` wrote
even when it fails).  The byte gathering and the subprocess are external
I/O; they are abstracted as the `disassembled` oracle argument:
`none` when `DisassembleInstruction` fails, `some instr` when it produces
the instruction text `instr`. -/

/-- The two collaborator values the constructor's bounds check reads:
`MemoryRegion::GetBase()` and `MemoryRegion::GetSize()`. -/
structure MemoryRegion where
  base : Nat
  size : Nat
deriving DecidableEq

/-- The members `operation_`, `dest_`, `src_` of `DisassemblerObjdump`. -/
structure DisassemblerObjdump where
  operation : String
  dest : String
  src : String
deriving DecidableEq

/-- The constructor `DisassemblerObjdump::DisassemblerObjdump`, with the
external disassembly abstracted as the `disassembled` oracle.  The bounds
check compares in `uint64_t`, so `GetBase() + GetSize()` wraps. -/
def DisassemblerObjdump.construct (disassembled : Option String)
    (memory_region : MemoryRegion) (address : Nat) : DisassemblerObjdump :=
  if address < memory_region.base ∨
      (memory_region.base + memory_region.size) % U64 ≤ address then
    ⟨"", "", ""⟩
  else
    match disassembled with
    | none => ⟨"", "", ""⟩
    | some instruction =>
      ⟨(tokMembers instruction).1, (tokMembers instruction).2.1,
       (tokMembers instruction).2.2⟩

/-- `DisassemblerObjdump::CalculateSrcAddress`. -/
def DisassemblerObjdump.CalculateSrcAddress (d : DisassemblerObjdump)
    (context : DumpContext) : Option Nat :=
  CalculateAddress context d.src

/-- `DisassemblerObjdump::CalculateDestAddress`. -/
def DisassemblerObjdump.CalculateDestAddress (d : DisassemblerObjdump)
    (context : DumpContext) : Option Nat :=
  CalculateAddress context d.dest

/-- The stride value `CalculateAddress` uses: the parsed stride capture,
defaulting to 1 when no stride is present. -/
def strideOf (e : MemOpExpr) : Nat :=
  if e.indexStride.length > 0 then strtoull0 e.indexStride else 1

/-- The offset value `CalculateAddress` uses: the parsed offset capture,
defaulting to 0 when no offset is present. -/
def offsetOf (e : MemOpExpr) : Nat :=
  if e.offset.length > 0 then strtoull0 e.offset else 0

/-- A digit string read in base 10 (the specification's
"parsed decimal integer"). -/
def decimalVal (l : List Char) : Nat :=
  l.foldl (fun a c => a * 10 + digitVal c) 0

/-! ## The tokenizer algorithm as the specification words it (§4.2)

`tokenizeSpec` restates the claimed algorithm phase by phase: skip
instruction prefixes until the first other token becomes the operation;
skip size keywords before the next token becomes `dest`; then exactly one
comma; skip size keywords before the next token becomes `src`; then any
trailing comma is a hard failure and all other trailing tokens are
ignored; a consumed comma with no following `src` token is a hard
failure. -/

/-- The result of the token loop paired with its success flag, folded
into the `Option` result `TokenizeInstruction` reports. -/
def finalizeTok : (String × String × String × Bool) × Bool →
    Option (String × String × String)
  | ((op, d, s, fc), ok) =>
    if ok = true then
      if fc = true ∧ s = "" then none else some (op, d, s)
    else none

/-- Phase 4 of the claimed algorithm: after the comma, size keywords are
skipped, the next token becomes `src`, a later comma is a hard failure,
other trailing tokens are ignored; no `src` token after the comma is a
hard failure. -/
def specPhase4 (op d : String) (ts : List String) :
    Option (String × String × String) :=
  match ts.dropWhile IsOperandSize with
  | [] => none
  | t :: ts' => if "," ∈ ts' then none else some (op, d, t)

/-- Phase 3 of the claimed algorithm: after `dest`, exactly one comma is
required before `src` may begin; any non-comma token is a hard failure. -/
def specPhase3 (op d : String) : List String → Option (String × String × String)
  | [] => some (op, d, "")
  | t :: ts => if t = "," then specPhase4 op d ts else none

/-- Phase 2 of the claimed algorithm: size keywords are skipped and the
next token becomes `dest`. -/
def specPhase2 (op : String) (ts : List String) :
    Option (String × String × String) :=
  match ts.dropWhile IsOperandSize with
  | [] => some (op, "", "")
  | t :: ts' => specPhase3 op t ts'

/-- Phase 1 of the claimed algorithm: instruction prefixes are skipped
and the first other token becomes the operation. -/
def specPhase1 (ts : List String) : Option (String × String × String) :=
  match ts.dropWhile IsInstructionPrefix with
  | [] => some ("", "", "")
  | t :: ts' => specPhase2 t ts'

/-- The claimed tokenizer algorithm, as the specification words it. -/
def tokenizeSpec (instruction : String) : Option (String × String × String) :=
  specPhase1 (splitTokens instruction.data)

/-! ## The addressing-mode grammar as the specification words it (§4.3) -/

/-- A well-formed optional segment prefix: absent, or a word character
followed by `s` and a colon. -/
def SegmentPartOK (l : List Char) : Prop :=
  l = [] ∨ ∃ a : Char, isWordChar a = true ∧ l = [a, 's', ':']

/-- A well-formed optional index part: absent, or `+` then a word-run
index name, `*`, and a digit-run stride. -/
def IndexPartOK (l : List Char) : Prop :=
  l = [] ∨ ∃ (nm st : List Char), nm ≠ [] ∧ (∀ c ∈ nm, isWordChar c = true) ∧
    st ≠ [] ∧ (∀ c ∈ st, c.isDigit = true) ∧ l = '+' :: (nm ++ '*' :: st)

/-- A well-formed optional offset part: absent, or a sign followed by a
`0x`-prefixed run of lower-case hex digits. -/
def OffsetPartOK (l : List Char) : Prop :=
  l = [] ∨ ∃ (sgn : Char) (hx : List Char), (sgn = '+' ∨ sgn = '-') ∧
    hx ≠ [] ∧ (∀ c ∈ hx, isHexLower c = true) ∧ l = sgn :: '0' :: 'x' :: hx

/-- Membership in the language of the anchored addressing-mode grammar
`(segment ":")? "[" base ("+" index "*" stride)? (sign offset)? "]"`. -/
def MatchesGrammar (s : String) : Prop :=
  ∃ (seg base idx off : List Char),
    SegmentPartOK seg ∧ base ≠ [] ∧ (∀ c ∈ base, isWordChar c = true) ∧
    IndexPartOK idx ∧ OffsetPartOK off ∧
    s.data = seg ++ '[' :: (base ++ idx ++ off ++ [']'])

/-! ## Supported name sets (from the specification, §4.1) -/

/-- The x86 register names the resolver supports. -/
def x86Regs : List String :=
  ["eax", "ebx", "ecx", "edx", "edi", "esi", "ebp", "esp", "eip"]

/-- The x86 segment names the resolver supports. -/
def x86Segs : List String := ["ds", "es", "fs", "gs"]

/-- The AMD64 register names the resolver supports. -/
def amd64Regs : List String :=
  ["rax", "rbx", "rcx", "rdx", "rdi", "rsi", "rbp", "rsp",
   "r8", "r9", "r10", "r11", "r12", "r13", "r14", "r15", "rip"]

/-- The AMD64 segment names the resolver supports. -/
def amd64Segs : List String := ["ds", "es"]

/-! ## Concrete contexts for witnesses -/

/-- The x86 context of the specification's worked example:
`esi = 0x1000`, `edi = 0x10`, `fs = 0x2000`, all other fields 0. -/
def ctxC2 : ContextX86 :=
  ⟨0, 0, 0, 0, 0x10, 0x1000, 0, 0, 0, 0, 0, 0x2000, 0⟩

/-- An x86 context with `ebx = 1` and all other fields 0. -/
def ctxC8 : ContextX86 := ⟨0, 1, 0, 0, 0, 0, 0, 0, 0, 0, 0, 0, 0⟩

/-- An AMD64 context with pairwise distinct register values. -/
def ctxA : ContextAMD64 :=
  ⟨1, 2, 3, 4, 5, 6, 7, 8, 9, 10, 11, 12, 13, 14, 15, 16, 17⟩

/-- The capture groups of the match of `"fs:[esi+edi*4+0x80]"`. -/
def eC2 : MemOpExpr := ⟨"fs", "esi", "edi", "4", "+", "0x80"⟩

/-- The capture groups of the match of `"[eax+ebx*12]"`. -/
def eC8 : MemOpExpr := ⟨"", "eax", "ebx", "12", "", ""⟩

/-! ## Helper lemmas -/

/-- The empty operand string never matches the operand grammar, so
`CalculateAddress` fails on it. -/
theorem calculateAddress_empty (ctx : DumpContext) :
    CalculateAddress ctx "" = none := rfl

/-- Splitting a whitespace-only character list yields no tokens. -/
theorem splitTokensF_all_ws : ∀ (fuel : Nat) (l : List Char),
    (∀ c ∈ l, isWs c = true) → splitTokensF fuel l = [] := by
  intro fuel
  induction fuel with
  | zero => intro l _; rfl
  | succ n ih =>
    intro l h
    cases l with
    | nil => rfl
    | cons c rest =>
      have hc : isWs c = true := h c (List.mem_cons_self c rest)
      simp only [splitTokensF, hc, if_pos]
      exact ih rest (fun x hx => h x (List.mem_cons_of_mem _ hx))

/-- The token loop preserves the invariant "a non-empty `src` implies a
non-empty `dest`". -/
theorem tokRun_src_dest : ∀ (ts : List String) (op d s : String) (fc : Bool)
    (op' d' s' : String) (fc' ok : Bool),
    tokRun ts op d s fc = ((op', d', s', fc'), ok) →
    (s ≠ "" → d ≠ "") → s' ≠ "" → d' ≠ "" := by
  intro ts
  induction ts with
  | nil =>
    intro op d s fc op' d' s' fc' ok heq hinv
    simp only [tokRun, Prod.mk.injEq] at heq
    obtain ⟨⟨ho, hd, hs, hf⟩, hok⟩ := heq
    subst ho; subst hd; subst hs
    exact hinv
  | cons t ts ih =>
    intro op d s fc op' d' s' fc' ok heq hinv
    simp only [tokRun] at heq
    by_cases hop : op = ""
    · rw [if_pos hop] at heq
      by_cases hpre : IsInstructionPrefix t = true
      · rw [if_pos hpre] at heq; exact ih _ _ _ _ _ _ _ _ _ heq hinv
      · rw [if_neg hpre] at heq; exact ih _ _ _ _ _ _ _ _ _ heq hinv
    · rw [if_neg hop] at heq
      by_cases hd : d = ""
      · rw [if_pos hd] at heq
        by_cases hsize : IsOperandSize t = true
        · rw [if_pos hsize] at heq; exact ih _ _ _ _ _ _ _ _ _ heq hinv
        · rw [if_neg hsize] at heq
          exact ih _ _ _ _ _ _ _ _ _ heq (fun hs => (hinv hs hd).elim)
      · rw [if_neg hd] at heq
        by_cases hfc : fc = false
        · rw [if_pos hfc] at heq
          by_cases hcomma : t = ","
          · rw [if_pos hcomma] at heq; exact ih _ _ _ _ _ _ _ _ _ heq hinv
          · rw [if_neg hcomma] at heq
            simp only [Prod.mk.injEq] at heq
            obtain ⟨⟨ho', hd', hs', hf'⟩, hok⟩ := heq
            subst ho'; subst hd'; subst hs'
            exact hinv
        · rw [if_neg hfc] at heq
          by_cases hs : s = ""
          · rw [if_pos hs] at heq
            by_cases hsize : IsOperandSize t = true
            · rw [if_pos hsize] at heq; exact ih _ _ _ _ _ _ _ _ _ heq hinv
            · rw [if_neg hsize] at heq
              exact ih _ _ _ _ _ _ _ _ _ heq (fun _ => hd)
          · rw [if_neg hs] at heq
            by_cases hcomma : t = ","
            · rw [if_pos hcomma] at heq
              simp only [Prod.mk.injEq] at heq
              obtain ⟨⟨ho', hd', hs', hf'⟩, hok⟩ := heq
              subst ho'; subst hd'; subst hs'
              exact hinv
            · rw [if_neg hcomma] at heq; exact ih _ _ _ _ _ _ _ _ _ heq hinv

/-- `strtoull` results fit in 64 bits. -/
theorem strtoull0_lt_U64 (s : String) : strtoull0 s < U64 := by
  have h : strtoull0 s ≤ ULLONG_MAX := by
    unfold strtoull0
    exact min_le_right _ _
  have : ULLONG_MAX < U64 := by unfold ULLONG_MAX U64; omega
  omega

/-- On a run of valid digits, `parseRun` is the base-`b` Horner fold. -/
theorem parseRun_all (isD : Char → Bool) (val : Char → Nat) (b : Nat) :
    ∀ (l : List Char) (acc : Nat), (∀ c ∈ l, isD c = true) →
    parseRun isD val b l acc = l.foldl (fun a c => a * b + val c) acc := by
  intro l
  induction l with
  | nil => intro acc _; rfl
  | cons c cs ih =>
    intro acc h
    have hc : isD c = true := h c (List.mem_cons_self c cs)
    simp only [parseRun, hc, if_pos, List.foldl_cons]
    exact ih _ (fun x hx => h x (List.mem_cons_of_mem _ hx))

/-- The offset group yields either the sign `"+"`, the sign `"-"`, or no
sign and no offset at all. -/
theorem splitOffset_shape : ∀ cs : List Char,
    (splitOffset cs).1 = "+" ∨ (splitOffset cs).1 = "-" ∨
      ((splitOffset cs).1 = "" ∧ (splitOffset cs).2.1 = "") := by
  intro cs
  unfold splitOffset
  split
  · rename_i c r2
    by_cases hc : c = '+' ∨ c = '-'
    · rw [if_pos hc]
      by_cases hx : (r2.takeWhile isHexLower).isEmpty = true
      · rw [if_pos hx]; exact Or.inr (Or.inr ⟨rfl, rfl⟩)
      · rw [if_neg hx]
        rcases hc with hc | hc
        · subst hc; exact Or.inl rfl
        · subst hc; exact Or.inr (Or.inl rfl)
    · rw [if_neg hc]; exact Or.inr (Or.inr ⟨rfl, rfl⟩)
  · exact Or.inr (Or.inr ⟨rfl, rfl⟩)

/-- Every character of the stride capture is a decimal digit. -/
theorem splitIndex_stride_digits : ∀ (cs : List Char) (c : Char),
    c ∈ ((splitIndex cs).2.1).data → c.isDigit = true := by
  intro cs c
  unfold splitIndex
  split
  · rename_i rest
    split
    · rename_i r2 heq
      by_cases hemp : (rest.takeWhile isWordChar).isEmpty = true ∨
          (r2.takeWhile Char.isDigit).isEmpty = true
      · rw [if_pos hemp]
        intro h; simp at h
      · rw [if_neg hemp]
        intro h
        simp only [String.data] at h
        exact List.mem_takeWhile_imp h
    · intro h; simp at h
  · intro h; simp at h

/-- Inversion of the operand-expression parser: the decomposition of the
input that a successful parse certifies. -/
theorem parseExpression_inv : ∀ (s : String) (e : MemOpExpr),
    parseExpression s = some e →
    ∃ cs2, (splitSegment s.data).2 = '[' :: cs2 ∧
      e.segment = (splitSegment s.data).1 ∧
      e.base = String.mk (cs2.takeWhile isWordChar) ∧
      (cs2.takeWhile isWordChar).isEmpty = false ∧
      e.indexName = (splitIndex (cs2.dropWhile isWordChar)).1 ∧
      e.indexStride = (splitIndex (cs2.dropWhile isWordChar)).2.1 ∧
      e.offsetSign =
        (splitOffset (splitIndex (cs2.dropWhile isWordChar)).2.2).1 ∧
      e.offset =
        (splitOffset (splitIndex (cs2.dropWhile isWordChar)).2.2).2.1 ∧
      (splitOffset (splitIndex (cs2.dropWhile isWordChar)).2.2).2.2 = [']'] := by
  intro s e h
  unfold parseExpression at h
  split at h
  · rename_i cs2 heq
    by_cases hb : (cs2.takeWhile isWordChar).isEmpty = true
    · rw [if_pos hb] at h; exact absurd h (by simp)
    · rw [if_neg hb] at h
      split at h
      · rename_i hbrk
        simp only [Option.some.injEq] at h
        subst h
        exact ⟨cs2, heq, rfl, rfl, by simpa using hb, rfl, rfl, rfl, rfl, hbrk⟩
      · exact absurd h (by simp)
  · exact absurd h (by simp)

/-- A successful parse constrains the sign capture: `"+"`, `"-"`, or
absent together with the offset. -/
theorem parse_sign_shape : ∀ (s : String) (e : MemOpExpr),
    parseExpression s = some e →
    e.offsetSign = "+" ∨ e.offsetSign = "-" ∨
      (e.offsetSign = "" ∧ e.offset = "") := by
  intro s e h
  obtain ⟨cs2, -, -, -, -, -, -, hsign, hoff, -⟩ := parseExpression_inv s e h
  rw [hsign, hoff]
  exact splitOffset_shape _

/-- The token split never produces an empty token. -/
theorem splitTokensF_ne_empty : ∀ (fuel : Nat) (l : List Char),
    "" ∉ splitTokensF fuel l := by
  intro fuel
  induction fuel with
  | zero => intro l h; simp [splitTokensF] at h
  | succ n ih =>
    intro l
    cases l with
    | nil => intro h; simp [splitTokensF] at h
    | cons c rest =>
      show "" ∉ (if isWs c = true then splitTokensF n rest
        else if c = ',' then "," :: splitTokensF n rest
        else String.mk (c :: rest.takeWhile isTokChar) ::
          splitTokensF n (rest.dropWhile isTokChar))
      by_cases hws : isWs c = true
      · rw [if_pos hws]; exact ih rest
      · rw [if_neg hws]
        by_cases hcm : c = ','
        · rw [if_pos hcm]
          intro h
          rcases List.mem_cons.mp h with h | h
          · exact absurd h (by decide)
          · exact ih rest h
        · rw [if_neg hcm]
          intro h
          rcases List.mem_cons.mp h with h | h
          · exact List.noConfusion (congrArg String.data h)
          · exact ih _ h

/-- The token split of an instruction line has no empty token. -/
theorem splitTokens_ne_empty (l : List Char) : "" ∉ splitTokens l :=
  splitTokensF_ne_empty l.length l

/-- Phase 4b: once `src` is set (all three operands non-empty), the loop
fails exactly when a comma remains among the trailing tokens. -/
theorem tokRun_phase4b : ∀ (ts : List String) (op d s : String),
    op ≠ "" → d ≠ "" → s ≠ "" →
    finalizeTok (tokRun ts op d s true) =
      if "," ∈ ts then none else some (op, d, s) := by
  intro ts
  induction ts with
  | nil =>
    intro op d s hop hd hs
    simp only [tokRun, finalizeTok, List.not_mem_nil]
    simp [hs]
  | cons t ts ih =>
    intro op d s hop hd hs
    simp only [tokRun]
    rw [if_neg hop, if_neg hd, if_neg (show ¬(true = false) by simp),
      if_neg hs]
    by_cases hc : t = ","
    · rw [if_pos hc]
      have hL : finalizeTok ((op, d, s, true), false) = none := rfl
      rw [hL,
        if_pos (show ("," : String) ∈ t :: ts by
          rw [hc]; exact List.mem_cons_self _ _)]
    · rw [if_neg hc, ih op d s hop hd hs]
      by_cases hm : ("," : String) ∈ ts
      · rw [if_pos hm, if_pos (List.mem_cons_of_mem _ hm)]
      · rw [if_neg hm,
          if_neg (show ¬(("," : String) ∈ t :: ts) by
            intro h
            rcases List.mem_cons.mp h with h | h
            · exact hc h.symm
            · exact hm h)]

/-- Phase 4a: after the comma, the loop agrees with `specPhase4`. -/
theorem tokRun_phase4a : ∀ (ts : List String) (op d : String),
    op ≠ "" → d ≠ "" → "" ∉ ts →
    finalizeTok (tokRun ts op d "" true) = specPhase4 op d ts := by
  intro ts
  induction ts with
  | nil =>
    intro op d hop hd _
    simp [tokRun, finalizeTok, specPhase4]
  | cons t ts ih =>
    intro op d hop hd hne
    simp only [tokRun]
    rw [if_neg hop, if_neg hd, if_neg (show ¬(true = false) by simp)]
    simp only [if_true]
    by_cases hsz : IsOperandSize t = true
    · rw [if_pos hsz]
      rw [ih op d hop hd (fun h => hne (List.mem_cons_of_mem _ h))]
      simp [specPhase4, List.dropWhile_cons, hsz]
    · rw [if_neg hsz]
      have ht : t ≠ "" := fun h => hne (h ▸ List.mem_cons_self t ts)
      rw [tokRun_phase4b ts op d t hop hd ht]
      simp [specPhase4, List.dropWhile_cons, hsz]

/-- Phase 3: once `dest` is set and the comma is still pending, the loop
agrees with `specPhase3`. -/
theorem tokRun_phase3 : ∀ (ts : List String) (op d : String),
    op ≠ "" → d ≠ "" → "" ∉ ts →
    finalizeTok (tokRun ts op d "" false) = specPhase3 op d ts := by
  intro ts
  cases ts with
  | nil =>
    intro op d hop hd _
    simp [tokRun, finalizeTok, specPhase3]
  | cons t ts =>
    intro op d hop hd hne
    simp only [tokRun]
    rw [if_neg hop, if_neg hd]
    simp only [if_true]
    by_cases hc : t = ","
    · rw [if_pos hc]
      rw [tokRun_phase4a ts op d hop hd
        (fun h => hne (List.mem_cons_of_mem _ h))]
      simp only [specPhase3]
      rw [if_pos hc]
    · rw [if_neg hc]
      have hL : finalizeTok ((op, d, "", false), false) = none := rfl
      rw [hL]
      simp only [specPhase3]
      rw [if_neg hc]

/-- Phase 2: once the operation is set, the loop agrees with
`specPhase2`. -/
theorem tokRun_phase2 : ∀ (ts : List String) (op : String),
    op ≠ "" → "" ∉ ts →
    finalizeTok (tokRun ts op "" "" false) = specPhase2 op ts := by
  intro ts
  induction ts with
  | nil =>
    intro op hop _
    simp [tokRun, finalizeTok, specPhase2]
  | cons t ts ih =>
    intro op hop hne
    simp only [tokRun]
    rw [if_neg hop]
    simp only [if_true]
    by_cases hsz : IsOperandSize t = true
    · rw [if_pos hsz]
      rw [ih op hop (fun h => hne (List.mem_cons_of_mem _ h))]
      simp [specPhase2, List.dropWhile_cons, hsz]
    · rw [if_neg hsz]
      have ht : t ≠ "" := fun h => hne (h ▸ List.mem_cons_self t ts)
      rw [tokRun_phase3 ts op t hop ht
        (fun h => hne (List.mem_cons_of_mem _ h))]
      simp [specPhase2, List.dropWhile_cons, hsz]

/-- Phase 1: from the initial state, the loop agrees with `specPhase1`. -/
theorem tokRun_phase1 : ∀ ts : List String, "" ∉ ts →
    finalizeTok (tokRun ts "" "" "" false) = specPhase1 ts := by
  intro ts
  induction ts with
  | nil =>
    intro _
    simp [tokRun, finalizeTok, specPhase1]
  | cons t ts ih =>
    intro hne
    simp only [tokRun]
    simp only [if_true]
    by_cases hpre : IsInstructionPrefix t = true
    · rw [if_pos hpre]
      rw [ih (fun h => hne (List.mem_cons_of_mem _ h))]
      simp [specPhase1, List.dropWhile_cons, hpre]
    · rw [if_neg hpre]
      have ht : t ≠ "" := fun h => hne (h ▸ List.mem_cons_self t ts)
      rw [tokRun_phase2 ts t ht (fun h => hne (List.mem_cons_of_mem _ h))]
      simp [specPhase1, List.dropWhile_cons, hpre]

/-- Decomposition certified by the segment split: either nothing was
consumed, or the input starts with a well-formed segment prefix. -/
theorem splitSegment_shape : ∀ (cs : List Char) (seg : String)
    (rest : List Char), splitSegment cs = (seg, rest) →
    (seg = "" ∧ rest = cs) ∨
      (∃ a, isWordChar a = true ∧ seg = String.mk [a, 's'] ∧
        cs = a :: 's' :: ':' :: rest) := by
  intro cs seg rest h
  unfold splitSegment at h
  split at h
  · rename_i a rest0
    by_cases hw : isWordChar a = true
    · rw [if_pos hw] at h
      simp only [Prod.mk.injEq] at h
      obtain ⟨h1, h2⟩ := h
      exact Or.inr ⟨a, hw, h1.symm, by rw [h2]⟩
    · rw [if_neg hw] at h
      simp only [Prod.mk.injEq] at h
      obtain ⟨h1, h2⟩ := h
      exact Or.inl ⟨h1.symm, h2.symm⟩
  · simp only [Prod.mk.injEq] at h
    obtain ⟨h1, h2⟩ := h
    exact Or.inl ⟨h1.symm, h2.symm⟩

/-- Decomposition certified by the index split: either nothing was
consumed, or the input starts with a well-formed `+name*digits` group. -/
theorem splitIndex_shape : ∀ (cs : List Char) (nm st : String)
    (rest : List Char), splitIndex cs = (nm, st, rest) →
    (nm = "" ∧ st = "" ∧ rest = cs) ∨
      (∃ l1 l2, l1 ≠ [] ∧ (∀ c ∈ l1, isWordChar c = true) ∧ l2 ≠ [] ∧
        (∀ c ∈ l2, c.isDigit = true) ∧ nm = String.mk l1 ∧
        st = String.mk l2 ∧ cs = '+' :: (l1 ++ '*' :: (l2 ++ rest))) := by
  intro cs nm st rest h
  unfold splitIndex at h
  split at h
  · rename_i rest0
    split at h
    · rename_i r2 heq
      by_cases hemp : (rest0.takeWhile isWordChar).isEmpty = true ∨
          (r2.takeWhile Char.isDigit).isEmpty = true
      · rw [if_pos hemp] at h
        simp only [Prod.mk.injEq] at h
        obtain ⟨h1, h2, h3⟩ := h
        exact Or.inl ⟨h1.symm, h2.symm, h3.symm⟩
      · rw [if_neg hemp] at h
        simp only [Prod.mk.injEq] at h
        obtain ⟨h1, h2, h3⟩ := h
        push_neg at hemp
        obtain ⟨he1, he2⟩ := hemp
        refine Or.inr ⟨rest0.takeWhile isWordChar, r2.takeWhile Char.isDigit,
          ?_, ?_, ?_, ?_, h1.symm, h2.symm, ?_⟩
        · intro hnil
          apply he1
          rw [hnil]
          rfl
        · intro c hc
          exact List.mem_takeWhile_imp hc
        · intro hnil
          apply he2
          rw [hnil]
          rfl
        · intro c hc
          exact List.mem_takeWhile_imp hc
        · have hr0 : rest0 = rest0.takeWhile isWordChar ++ '*' :: r2 := by
            conv_lhs => rw [← List.takeWhile_append_dropWhile
              (p := isWordChar) (l := rest0)]
            rw [heq]
          have hr2 : r2 = r2.takeWhile Char.isDigit ++ rest := by
            conv_lhs => rw [← List.takeWhile_append_dropWhile
              (p := Char.isDigit) (l := r2)]
            rw [h3]
          conv_lhs => rw [hr0, hr2]
    · simp only [Prod.mk.injEq] at h
      obtain ⟨h1, h2, h3⟩ := h
      exact Or.inl ⟨h1.symm, h2.symm, h3.symm⟩
  · simp only [Prod.mk.injEq] at h
    obtain ⟨h1, h2, h3⟩ := h
    exact Or.inl ⟨h1.symm, h2.symm, h3.symm⟩

/-- Decomposition certified by the offset split: either nothing was
consumed, or the input starts with a well-formed sign-and-hex group. -/
theorem splitOffset_shape2 : ∀ (cs : List Char) (sgn off : String)
    (rest : List Char), splitOffset cs = (sgn, off, rest) →
    (sgn = "" ∧ off = "" ∧ rest = cs) ∨
      (∃ c hx, (c = '+' ∨ c = '-') ∧ hx ≠ [] ∧
        (∀ x ∈ hx, isHexLower x = true) ∧ sgn = String.mk [c] ∧
        off = String.mk ('0' :: 'x' :: hx) ∧
        cs = c :: '0' :: 'x' :: (hx ++ rest)) := by
  intro cs sgn off rest h
  unfold splitOffset at h
  split at h
  · rename_i c r2
    by_cases hc : c = '+' ∨ c = '-'
    · rw [if_pos hc] at h
      by_cases hx : (r2.takeWhile isHexLower).isEmpty = true
      · rw [if_pos hx] at h
        simp only [Prod.mk.injEq] at h
        obtain ⟨h1, h2, h3⟩ := h
        exact Or.inl ⟨h1.symm, h2.symm, h3.symm⟩
      · rw [if_neg hx] at h
        simp only [Prod.mk.injEq] at h
        obtain ⟨h1, h2, h3⟩ := h
        refine Or.inr ⟨c, r2.takeWhile isHexLower, hc, ?_, ?_, h1.symm,
          h2.symm, ?_⟩
        · intro hnil
          apply hx
          rw [hnil]
          rfl
        · intro x hxm
          exact List.mem_takeWhile_imp hxm
        · have hr2 : r2 = r2.takeWhile isHexLower ++ rest := by
            conv_lhs => rw [← List.takeWhile_append_dropWhile
              (p := isHexLower) (l := r2)]
            rw [h3]
          conv_lhs => rw [hr2]
    · rw [if_neg hc] at h
      simp only [Prod.mk.injEq] at h
      obtain ⟨h1, h2, h3⟩ := h
      exact Or.inl ⟨h1.symm, h2.symm, h3.symm⟩
  · simp only [Prod.mk.injEq] at h
    obtain ⟨h1, h2, h3⟩ := h
    exact Or.inl ⟨h1.symm, h2.symm, h3.symm⟩

/-- Soundness of the operand parser with respect to the grammar: a
successful parse exhibits a grammar decomposition of the input. -/
theorem parseExpression_sound : ∀ (s : String) (e : MemOpExpr),
    parseExpression s = some e → MatchesGrammar s := by
  intro s e h
  obtain ⟨cs2, hseg2, -, -, hbne, -, -, -, -, hbrk⟩ := parseExpression_inv s e h
  have hbase : cs2 = cs2.takeWhile isWordChar ++ cs2.dropWhile isWordChar :=
    (List.takeWhile_append_dropWhile isWordChar cs2).symm
  have hbne2 : cs2.takeWhile isWordChar ≠ [] := by
    intro hnil
    rw [hnil] at hbne
    simp at hbne
  have hbw2 : ∀ c ∈ cs2.takeWhile isWordChar, isWordChar c = true :=
    fun _ hc => List.mem_takeWhile_imp hc
  rcases (splitIndex_shape (cs2.dropWhile isWordChar)
      (splitIndex (cs2.dropWhile isWordChar)).1
      (splitIndex (cs2.dropWhile isWordChar)).2.1
      (splitIndex (cs2.dropWhile isWordChar)).2.2 rfl) with
    ⟨-, -, hirest⟩ | ⟨l1, l2, hl1ne, hl1w, hl2ne, hl2d, -, -, hidx⟩
  · rcases (splitOffset_shape2 ((splitIndex (cs2.dropWhile isWordChar)).2.2)
        (splitOffset ((splitIndex (cs2.dropWhile isWordChar)).2.2)).1
        (splitOffset ((splitIndex (cs2.dropWhile isWordChar)).2.2)).2.1
        (splitOffset ((splitIndex (cs2.dropWhile isWordChar)).2.2)).2.2
        rfl) with
      ⟨-, -, horest⟩ | ⟨sc, hx, hsc, hxne, hxh, -, -, hoff⟩
    · have h2 : cs2.dropWhile isWordChar = [']'] :=
        hirest.symm.trans (horest.symm.trans hbrk)
      rcases (splitSegment_shape s.data (splitSegment s.data).1
          (splitSegment s.data).2 rfl) with ⟨-, hsrest⟩ | ⟨a, haw, -, hsdecomp⟩
      · refine ⟨[], cs2.takeWhile isWordChar, [], [], Or.inl rfl, hbne2, hbw2,
          Or.inl rfl, Or.inl rfl, ?_⟩
        have h1 : s.data = '[' :: cs2 := hsrest.symm.trans hseg2
        conv_lhs => rw [h1, hbase, h2]
        simp
      · refine ⟨[a, 's', ':'], cs2.takeWhile isWordChar, [], [],
          Or.inr ⟨a, haw, rfl⟩, hbne2, hbw2, Or.inl rfl, Or.inl rfl, ?_⟩
        have h1 : s.data = a :: 's' :: ':' :: ('[' :: cs2) :=
          hsdecomp.trans (by rw [hseg2])
        conv_lhs => rw [h1, hbase, h2]
        simp
    · have h2 : cs2.dropWhile isWordChar = sc :: '0' :: 'x' :: (hx ++ [']']) :=
        hirest.symm.trans (hoff.trans (by rw [hbrk]))
      rcases (splitSegment_shape s.data (splitSegment s.data).1
          (splitSegment s.data).2 rfl) with ⟨-, hsrest⟩ | ⟨a, haw, -, hsdecomp⟩
      · refine ⟨[], cs2.takeWhile isWordChar, [], sc :: '0' :: 'x' :: hx,
          Or.inl rfl, hbne2, hbw2, Or.inl rfl,
          Or.inr ⟨sc, hx, hsc, hxne, hxh, rfl⟩, ?_⟩
        have h1 : s.data = '[' :: cs2 := hsrest.symm.trans hseg2
        conv_lhs => rw [h1, hbase, h2]
        simp
      · refine ⟨[a, 's', ':'], cs2.takeWhile isWordChar, [],
          sc :: '0' :: 'x' :: hx, Or.inr ⟨a, haw, rfl⟩, hbne2, hbw2,
          Or.inl rfl, Or.inr ⟨sc, hx, hsc, hxne, hxh, rfl⟩, ?_⟩
        have h1 : s.data = a :: 's' :: ':' :: ('[' :: cs2) :=
          hsdecomp.trans (by rw [hseg2])
        conv_lhs => rw [h1, hbase, h2]
        simp
  · rcases (splitOffset_shape2 ((splitIndex (cs2.dropWhile isWordChar)).2.2)
        (splitOffset ((splitIndex (cs2.dropWhile isWordChar)).2.2)).1
        (splitOffset ((splitIndex (cs2.dropWhile isWordChar)).2.2)).2.1
        (splitOffset ((splitIndex (cs2.dropWhile isWordChar)).2.2)).2.2
        rfl) with
      ⟨-, -, horest⟩ | ⟨sc, hx, hsc, hxne, hxh, -, -, hoff⟩
    · have h2 : cs2.dropWhile isWordChar =
          '+' :: (l1 ++ '*' :: (l2 ++ [']'])) :=
        hidx.trans (by rw [horest.symm.trans hbrk])
      rcases (splitSegment_shape s.data (splitSegment s.data).1
          (splitSegment s.data).2 rfl) with ⟨-, hsrest⟩ | ⟨a, haw, -, hsdecomp⟩
      · refine ⟨[], cs2.takeWhile isWordChar, '+' :: (l1 ++ '*' :: l2), [],
          Or.inl rfl, hbne2, hbw2,
          Or.inr ⟨l1, l2, hl1ne, hl1w, hl2ne, hl2d, rfl⟩, Or.inl rfl, ?_⟩
        have h1 : s.data = '[' :: cs2 := hsrest.symm.trans hseg2
        conv_lhs => rw [h1, hbase, h2]
        simp
      · refine ⟨[a, 's', ':'], cs2.takeWhile isWordChar,
          '+' :: (l1 ++ '*' :: l2), [], Or.inr ⟨a, haw, rfl⟩, hbne2, hbw2,
          Or.inr ⟨l1, l2, hl1ne, hl1w, hl2ne, hl2d, rfl⟩, Or.inl rfl, ?_⟩
        have h1 : s.data = a :: 's' :: ':' :: ('[' :: cs2) :=
          hsdecomp.trans (by rw [hseg2])
        conv_lhs => rw [h1, hbase, h2]
        simp
    · have h2 : cs2.dropWhile isWordChar =
          '+' :: (l1 ++ '*' :: (l2 ++ (sc :: '0' :: 'x' :: (hx ++ [']'])))) :=
        hidx.trans (by rw [hoff, hbrk])
      rcases (splitSegment_shape s.data (splitSegment s.data).1
          (splitSegment s.data).2 rfl) with ⟨-, hsrest⟩ | ⟨a, haw, -, hsdecomp⟩
      · refine ⟨[], cs2.takeWhile isWordChar, '+' :: (l1 ++ '*' :: l2),
          sc :: '0' :: 'x' :: hx, Or.inl rfl, hbne2, hbw2,
          Or.inr ⟨l1, l2, hl1ne, hl1w, hl2ne, hl2d, rfl⟩,
          Or.inr ⟨sc, hx, hsc, hxne, hxh, rfl⟩, ?_⟩
        have h1 : s.data = '[' :: cs2 := hsrest.symm.trans hseg2
        conv_lhs => rw [h1, hbase, h2]
        simp
      · refine ⟨[a, 's', ':'], cs2.takeWhile isWordChar,
          '+' :: (l1 ++ '*' :: l2), sc :: '0' :: 'x' :: hx,
          Or.inr ⟨a, haw, rfl⟩, hbne2, hbw2,
          Or.inr ⟨l1, l2, hl1ne, hl1w, hl2ne, hl2d, rfl⟩,
          Or.inr ⟨sc, hx, hsc, hxne, hxh, rfl⟩, ?_⟩
        have h1 : s.data = a :: 's' :: ':' :: ('[' :: cs2) :=
          hsdecomp.trans (by rw [hseg2])
        conv_lhs => rw [h1, hbase, h2]
        simp

/-! ## Claim theorems -/

/-- C1: on every operand expression that matches the addressing-mode
grammar and whose names resolve, `CalculateAddress` returns
`segment + base + index * stride`, plus the offset when the sign is `+`
and minus the offset when the sign is `-`, with the documented defaults
(segment 0, index 0, stride 1, offset 0) and wrapping unsigned 64-bit
arithmetic. -/
theorem c1_address_formula : ∀ (ctx : DumpContext) (expr : String)
    (e : MemOpExpr) (sv bv iv : Nat),
    parseExpression expr = some e →
    (if e.segment.length > 0 then GetSegmentAddress ctx e.segment
     else some 0) = some sv →
    GetRegisterValue ctx e.base = some bv →
    (if e.indexName.length > 0 then GetRegisterValue ctx e.indexName
     else some 0) = some iv →
    CalculateAddress ctx expr =
      some (if e.offsetSign = "-" then
              (sv + bv + iv * strideOf e + (U64 - offsetOf e)) % U64
            else (sv + bv + iv * strideOf e + offsetOf e) % U64) := by
  intro ctx expr e sv bv iv hp hs hb hi
  unfold CalculateAddress
  rw [hp]
  simp only [hs, hb, hi]
  rcases parse_sign_shape expr e hp with hsign | hsign | hsign
  · rw [hsign]
    simp only [strideOf, offsetOf]
    rw [if_neg (by decide : ¬("+" : String) = "-")]
    simp only [if_pos]
    rw [Nat.mod_add_mod]
    rw [if_neg (by decide : ¬("+" : String) = "-")]
  · rw [hsign]
    rw [if_neg (by decide : ¬("-" : String) = "+"), if_pos rfl, if_pos rfl]
    simp only [strideOf, offsetOf]
    rw [Nat.mod_add_mod]
  · obtain ⟨hsgn, hoff⟩ := hsign
    rw [hsgn]
    rw [if_neg (by decide : ¬("" : String) = "+"),
      if_neg (by decide : ¬("" : String) = "-"),
      if_neg (by decide : ¬("" : String) = "-")]
    have hoz : offsetOf e = 0 := by
      unfold offsetOf
      rw [hoff]
      rfl
    rw [hoz, Nat.add_zero]
    rfl

/-- C1 (witness): the formula instantiated on `"fs:[esi+edi*4+0x80]"`
with `sv = 0x2000`, `bv = 0x1000`, `iv = 0x10`. -/
theorem c1_witness :
    CalculateAddress (DumpContext.x86 ctxC2) "fs:[esi+edi*4+0x80]" =
      some (if eC2.offsetSign = "-" then
              (0x2000 + 0x1000 + 0x10 * strideOf eC2 + (U64 - offsetOf eC2)) %
                U64
            else (0x2000 + 0x1000 + 0x10 * strideOf eC2 + offsetOf eC2) %
              U64) :=
  c1_address_formula (DumpContext.x86 ctxC2) "fs:[esi+edi*4+0x80]" eC2
    0x2000 0x1000 0x10 (by decide) (by decide) (by decide) (by decide)

/-- C2 (counterexample): on the x86 context with `esi = 0x1000`,
`edi = 0x10`, `fs = 0x2000`, evaluating `"fs:[esi+edi*4+0x80]"` does not
return `0x3080` (the claimed sum omits the `edi*4` term). -/
theorem c2_counterexample :
    CalculateAddress (DumpContext.x86 ctxC2) "fs:[esi+edi*4+0x80]" ≠
      some 0x3080 := by decide

/-- C2 (amended): evaluating `"fs:[esi+edi*4+0x80]"` on an x86 context
with `esi = 0x1000`, `edi = 0x10`, `fs = 0x2000` succeeds and returns
`0x2000 + 0x1000 + 0x10 * 4 + 0x80 = 0x30C0`. -/
theorem c2_amended_value :
    CalculateAddress (DumpContext.x86 ctxC2) "fs:[esi+edi*4+0x80]" =
      some 0x30C0 := by decide

/-- C4: on AMD64, the segment names `ds` and `es` resolve to the constant
0 for every context, `fs` and `gs` fail, and each of the seventeen
general-purpose registers resolves to its stored context value. -/
theorem c4_amd64_resolution : ∀ c : ContextAMD64,
    GetSegmentAddress (DumpContext.amd64 c) "ds" = some 0 ∧
    GetSegmentAddress (DumpContext.amd64 c) "es" = some 0 ∧
    GetSegmentAddress (DumpContext.amd64 c) "fs" = none ∧
    GetSegmentAddress (DumpContext.amd64 c) "gs" = none ∧
    GetRegisterValue (DumpContext.amd64 c) "rax" = some c.rax ∧
    GetRegisterValue (DumpContext.amd64 c) "rbx" = some c.rbx ∧
    GetRegisterValue (DumpContext.amd64 c) "rcx" = some c.rcx ∧
    GetRegisterValue (DumpContext.amd64 c) "rdx" = some c.rdx ∧
    GetRegisterValue (DumpContext.amd64 c) "rdi" = some c.rdi ∧
    GetRegisterValue (DumpContext.amd64 c) "rsi" = some c.rsi ∧
    GetRegisterValue (DumpContext.amd64 c) "rbp" = some c.rbp ∧
    GetRegisterValue (DumpContext.amd64 c) "rsp" = some c.rsp ∧
    GetRegisterValue (DumpContext.amd64 c) "r8" = some c.r8 ∧
    GetRegisterValue (DumpContext.amd64 c) "r9" = some c.r9 ∧
    GetRegisterValue (DumpContext.amd64 c) "r10" = some c.r10 ∧
    GetRegisterValue (DumpContext.amd64 c) "r11" = some c.r11 ∧
    GetRegisterValue (DumpContext.amd64 c) "r12" = some c.r12 ∧
    GetRegisterValue (DumpContext.amd64 c) "r13" = some c.r13 ∧
    GetRegisterValue (DumpContext.amd64 c) "r14" = some c.r14 ∧
    GetRegisterValue (DumpContext.amd64 c) "r15" = some c.r15 ∧
    GetRegisterValue (DumpContext.amd64 c) "rip" = some c.rip := by
  intro c
  exact ⟨rfl, rfl, rfl, rfl, rfl, rfl, rfl, rfl, rfl, rfl, rfl, rfl, rfl,
    rfl, rfl, rfl, rfl, rfl, rfl, rfl, rfl⟩

/-- C5: `TokenizeInstruction` implements exactly the claimed single-pass
algorithm: prefixes (`lock`, `rep`, `repz`, `repnz`) are skipped until the
first other token becomes the operation; size keywords (`BYTE`, `WORD`,
`DWORD`, `QWORD`, `PTR`) are skipped before `dest` and before `src`;
after `dest` exactly one comma is required and any non-comma token there
fails; a comma after `src` fails; a consumed comma with no following
`src` fails; other trailing tokens are ignored. -/
theorem c5_tokenizer_algorithm : ∀ instruction : String,
    TokenizeInstruction instruction = tokenizeSpec instruction := by
  intro instr
  have h1 : TokenizeInstruction instr =
      finalizeTok (tokRun (splitTokens instr.data) "" "" "" false) := by
    unfold TokenizeInstruction finalizeTok
    rcases tokRun (splitTokens instr.data) "" "" "" false with
      ⟨⟨op, d, s, fc⟩, ok⟩
    cases ok <;> simp
  rw [h1, tokRun_phase1 _ (splitTokens_ne_empty _)]
  rfl

/-- C6: on every operand text outside the language of the anchored
addressing-mode grammar, `CalculateAddress` fails; matching is
all-or-nothing with no partial-match fallback. -/
theorem c6_not_memory_operand : ∀ (ctx : DumpContext) (expr : String),
    ¬MatchesGrammar expr → CalculateAddress ctx expr = none := by
  intro ctx expr h
  cases hp : parseExpression expr with
  | none =>
    unfold CalculateAddress
    rw [hp]
  | some e => exact absurd (parseExpression_sound expr e hp) h

/-- C6 (witness): the bare register operand `"eax"` is not in the
grammar's language, and `CalculateAddress` fails on it. -/
theorem c6_witness :
    CalculateAddress (DumpContext.x86 ctxC2) "eax" = none :=
  c6_not_memory_operand (DumpContext.x86 ctxC2) "eax" (fun hm => by
    obtain ⟨seg, base, idx, off, -, -, -, -, -, heq⟩ := hm
    have h1 : '[' ∈ "eax".data := by
      rw [heq]
      exact List.mem_append_right _ (List.mem_cons_self _ _)
    exact absurd h1 (by decide))

/-- C7: constructing the calculator with an address outside
`[region.base, region.base + region.size)` yields an inert instance:
both subsequent address calculations fail, for every context and every
disassembly outcome. -/
theorem c7_oob_inert : ∀ (dis : Option String) (region : MemoryRegion)
    (address : Nat) (ctx : DumpContext),
    ¬(region.base ≤ address ∧ address < region.base + region.size) →
    DisassemblerObjdump.CalculateSrcAddress
      (DisassemblerObjdump.construct dis region address) ctx = none ∧
    DisassemblerObjdump.CalculateDestAddress
      (DisassemblerObjdump.construct dis region address) ctx = none := by
  intro dis region address ctx h
  have hcond : address < region.base ∨
      (region.base + region.size) % U64 ≤ address := by
    rcases Nat.lt_or_ge address region.base with h1 | h1
    · exact Or.inl h1
    · right
      have h2 : region.base + region.size ≤ address := by
        by_contra hlt
        exact h ⟨h1, Nat.lt_of_not_le hlt⟩
      exact le_trans (Nat.mod_le _ _) h2
  have hc : DisassemblerObjdump.construct dis region address = ⟨"", "", ""⟩ := by
    unfold DisassemblerObjdump.construct
    rw [if_pos hcond]
  rw [hc]
  exact ⟨calculateAddress_empty ctx, calculateAddress_empty ctx⟩

/-- C7 (witness): a concrete out-of-bounds construction is inert. -/
theorem c7_witness :
    DisassemblerObjdump.CalculateSrcAddress
      (DisassemblerObjdump.construct none ⟨100, 10⟩ 5)
      (DumpContext.x86 ctxC2) = none ∧
    DisassemblerObjdump.CalculateDestAddress
      (DisassemblerObjdump.construct none ⟨100, 10⟩ 5)
      (DumpContext.x86 ctxC2) = none :=
  c7_oob_inert none ⟨100, 10⟩ 5 (DumpContext.x86 ctxC2) (by decide)

/-- C8 (counterexample): with `eax = 0` and `ebx = 1`, the operand
`"[eax+ebx*09]"` matches the grammar, but evaluates to 0, not to the 9 a
base-10 reading of the stride would give: the code hands the stride to
`strtoull` with base 0, which treats the leading `0` as an octal prefix
and stops at the non-octal digit `9`. -/
theorem c8_counterexample :
    CalculateAddress (DumpContext.x86 ctxC8) "[eax+ebx*09]" = some 0 ∧
      CalculateAddress (DumpContext.x86 ctxC8) "[eax+ebx*09]" ≠ some 9 := by
  decide

/-- C8 (amended): the stride digit string is interpreted by `strtoull`
with base 0 (a leading `0` selects octal and parsing stops at the first
non-octal digit; the value is clamped to `ULLONG_MAX`); whenever the
matched stride has no leading zero and its base-10 value fits in 64 bits,
the stride value used equals the digit string read in base 10. -/
theorem c8_stride_decimal : ∀ (expr : String) (e : MemOpExpr),
    parseExpression expr = some e →
    e.indexStride ≠ "" →
    e.indexStride.data.head? ≠ some '0' →
    decimalVal e.indexStride.data < U64 →
    strideOf e = decimalVal e.indexStride.data := by
  intro expr e hp hne hhead hlt
  have hdig : ∀ c ∈ e.indexStride.data, c.isDigit = true := by
    obtain ⟨cs2, -, -, -, -, -, hstr, -, -, -⟩ := parseExpression_inv expr e hp
    intro c hc
    rw [hstr] at hc
    exact splitIndex_stride_digits _ c hc
  have hlen : e.indexStride.length > 0 := by
    cases hsd : e.indexStride.data with
    | nil => exact absurd (String.ext hsd) hne
    | cons c cs =>
      have : e.indexStride.length = e.indexStride.data.length := rfl
      rw [this, hsd]
      simp
  unfold strideOf
  rw [if_pos hlen]
  unfold strtoull0
  rcases hsd : e.indexStride.data with - | ⟨c, cs⟩
  · exact absurd (by apply String.ext; rw [hsd]) hne
  · have hc0 : ¬c = '0' := by
      intro h
      rw [hsd, h] at hhead
      exact hhead rfl
    have hall : ∀ x ∈ c :: cs, x.isDigit = true := by
      rw [← hsd]; exact hdig
    rw [hsd] at hlt
    have harm :
        (match c :: cs with
          | '0' :: 'x' :: cs => parseRun isHexLower hexVal 16 cs 0
          | '0' :: cs => parseRun isOctDigit digitVal 8 cs 0
          | cs => parseRun Char.isDigit digitVal 10 cs 0) =
          parseRun Char.isDigit digitVal 10 (c :: cs) 0 := by
      split <;> simp_all
    rw [harm, parseRun_all Char.isDigit digitVal 10 (c :: cs) 0 hall]
    have hle : (c :: cs).foldl (fun a x => a * 10 + digitVal x) 0 ≤
        ULLONG_MAX := by
      unfold decimalVal at hlt
      unfold U64 at hlt
      unfold ULLONG_MAX
      omega
    rw [Nat.min_eq_left hle]
    rfl

/-- C8 (witness): the amended statement instantiated on
`"[eax+ebx*12]"`, whose stride `"12"` reads as 12 in base 10. -/
theorem c8_witness : strideOf eC8 = decimalVal ("12".data) :=
  c8_stride_decimal "[eax+ebx*12]" eC8 (by decide) (by decide) (by decide)
    (by decide)

/-- C9: whenever `TokenizeInstruction` succeeds, a non-empty `src` implies
a non-empty `dest`. -/
theorem c9_src_implies_dest : ∀ (instruction op d s : String),
    TokenizeInstruction instruction = some (op, d, s) → s ≠ "" → d ≠ "" := by
  intro instr op d s h hs
  unfold TokenizeInstruction at h
  rcases hr : tokRun (splitTokens instr.data) "" "" "" false with ⟨⟨op', d', s', fc'⟩, ok⟩
  rw [hr] at h
  cases ok with
  | false => simp at h
  | true =>
    simp only at h
    by_cases hcond : fc' = true ∧ s' = ""
    · rw [if_pos hcond] at h; exact absurd h (by simp)
    · rw [if_neg hcond] at h
      simp only [Option.some.injEq, Prod.mk.injEq] at h
      obtain ⟨h1, h2, h3⟩ := h
      subst h1; subst h2; subst h3
      exact tokRun_src_dest _ _ _ _ _ _ _ _ _ _ hr (fun hh => hh) hs

/-- C9 (witness): instantiated on `"cmp eax,ebx"`, whose tokenization
succeeds with `src = "ebx"` and `dest = "eax"`. -/
theorem c9_witness : ("eax" : String) ≠ "" :=
  c9_src_implies_dest "cmp eax,ebx" "cmp" "eax" "ebx" (by decide) (by decide)

/-- C10: tokenizing an empty or whitespace-only instruction succeeds with
`operation`, `dest` and `src` all empty, and the resulting inert
calculator's empty operand string fails the address-expression grammar. -/
theorem c10_whitespace_tokenizes_empty : ∀ (s : String) (ctx : DumpContext),
    (∀ c ∈ s.data, isWs c = true) →
    TokenizeInstruction s = some ("", "", "") ∧
      CalculateAddress ctx "" = none := by
  intro s ctx h
  refine ⟨?_, calculateAddress_empty ctx⟩
  unfold TokenizeInstruction splitTokens
  rw [splitTokensF_all_ws _ _ h]
  rfl

/-- C3: for each architecture, register/segment resolution succeeds
exactly on the architecture's supported name set, fails with `none`
(never a default value) outside it, and on the supported names returns
the designated context value (for AMD64 segments, the constant 0 the
contract prescribes). -/
theorem c3_lookup_total : ∀ (name : String) (cx : ContextX86)
    (ca : ContextAMD64),
    ((GetRegisterValue (DumpContext.x86 cx) name).isSome ↔ name ∈ x86Regs) ∧
    ((GetSegmentAddress (DumpContext.x86 cx) name).isSome ↔ name ∈ x86Segs) ∧
    ((GetRegisterValue (DumpContext.amd64 ca) name).isSome ↔
      name ∈ amd64Regs) ∧
    ((GetSegmentAddress (DumpContext.amd64 ca) name).isSome ↔
      name ∈ amd64Segs) ∧
    GetRegisterValue (DumpContext.x86 cx) "eax" = some cx.eax ∧
    GetRegisterValue (DumpContext.x86 cx) "ebx" = some cx.ebx ∧
    GetRegisterValue (DumpContext.x86 cx) "ecx" = some cx.ecx ∧
    GetRegisterValue (DumpContext.x86 cx) "edx" = some cx.edx ∧
    GetRegisterValue (DumpContext.x86 cx) "edi" = some cx.edi ∧
    GetRegisterValue (DumpContext.x86 cx) "esi" = some cx.esi ∧
    GetRegisterValue (DumpContext.x86 cx) "ebp" = some cx.ebp ∧
    GetRegisterValue (DumpContext.x86 cx) "esp" = some cx.esp ∧
    GetRegisterValue (DumpContext.x86 cx) "eip" = some cx.eip ∧
    GetSegmentAddress (DumpContext.x86 cx) "ds" = some cx.ds ∧
    GetSegmentAddress (DumpContext.x86 cx) "es" = some cx.es ∧
    GetSegmentAddress (DumpContext.x86 cx) "fs" = some cx.fs ∧
    GetSegmentAddress (DumpContext.x86 cx) "gs" = some cx.gs ∧
    GetRegisterValue (DumpContext.amd64 ca) "rax" = some ca.rax ∧
    GetRegisterValue (DumpContext.amd64 ca) "rbx" = some ca.rbx ∧
    GetRegisterValue (DumpContext.amd64 ca) "rcx" = some ca.rcx ∧
    GetRegisterValue (DumpContext.amd64 ca) "rdx" = some ca.rdx ∧
    GetRegisterValue (DumpContext.amd64 ca) "rdi" = some ca.rdi ∧
    GetRegisterValue (DumpContext.amd64 ca) "rsi" = some ca.rsi ∧
    GetRegisterValue (DumpContext.amd64 ca) "rbp" = some ca.rbp ∧
    GetRegisterValue (DumpContext.amd64 ca) "rsp" = some ca.rsp ∧
    GetRegisterValue (DumpContext.amd64 ca) "r8" = some ca.r8 ∧
    GetRegisterValue (DumpContext.amd64 ca) "r9" = some ca.r9 ∧
    GetRegisterValue (DumpContext.amd64 ca) "r10" = some ca.r10 ∧
    GetRegisterValue (DumpContext.amd64 ca) "r11" = some ca.r11 ∧
    GetRegisterValue (DumpContext.amd64 ca) "r12" = some ca.r12 ∧
    GetRegisterValue (DumpContext.amd64 ca) "r13" = some ca.r13 ∧
    GetRegisterValue (DumpContext.amd64 ca) "r14" = some ca.r14 ∧
    GetRegisterValue (DumpContext.amd64 ca) "r15" = some ca.r15 ∧
    GetRegisterValue (DumpContext.amd64 ca) "rip" = some ca.rip ∧
    GetSegmentAddress (DumpContext.amd64 ca) "ds" = some 0 ∧
    GetSegmentAddress (DumpContext.amd64 ca) "es" = some 0 := by
  intro name cx ca
  refine ⟨?_, ?_, ?_, ?_, rfl, rfl, rfl, rfl, rfl, rfl, rfl, rfl, rfl, rfl,
    rfl, rfl, rfl, rfl, rfl, rfl, rfl, rfl, rfl, rfl, rfl, rfl, rfl, rfl,
    rfl, rfl, rfl, rfl, rfl, rfl, rfl, rfl⟩
  · constructor
    · intro h
      by_contra hmem
      simp only [x86Regs, List.mem_cons, List.not_mem_nil, or_false,
        not_or] at hmem
      obtain ⟨e1, e2, e3, e4, e5, e6, e7, e8, e9⟩ := hmem
      simp only [GetRegisterValue, GetRegisterValueX86] at h
      rw [if_neg e1, if_neg e2, if_neg e3, if_neg e4, if_neg e5, if_neg e6,
        if_neg e7, if_neg e8, if_neg e9] at h
      simp at h
    · intro hmem
      simp only [x86Regs, List.mem_cons, List.not_mem_nil, or_false] at hmem
      simp only [GetRegisterValue, GetRegisterValueX86]
      rcases hmem with e | e | e | e | e | e | e | e | e <;> subst e <;> rfl
  · constructor
    · intro h
      by_contra hmem
      simp only [x86Segs, List.mem_cons, List.not_mem_nil, or_false,
        not_or] at hmem
      obtain ⟨e1, e2, e3, e4⟩ := hmem
      simp only [GetSegmentAddress, GetSegmentAddressX86] at h
      rw [if_neg e1, if_neg e2, if_neg e3, if_neg e4] at h
      simp at h
    · intro hmem
      simp only [x86Segs, List.mem_cons, List.not_mem_nil, or_false] at hmem
      simp only [GetSegmentAddress, GetSegmentAddressX86]
      rcases hmem with e | e | e | e <;> subst e <;> rfl
  · constructor
    · intro h
      by_contra hmem
      simp only [amd64Regs, List.mem_cons, List.not_mem_nil, or_false,
        not_or] at hmem
      obtain ⟨e1, e2, e3, e4, e5, e6, e7, e8, e9, e10, e11, e12, e13, e14,
        e15, e16, e17⟩ := hmem
      simp only [GetRegisterValue, GetRegisterValueAMD64] at h
      rw [if_neg e1, if_neg e2, if_neg e3, if_neg e4, if_neg e5, if_neg e6,
        if_neg e7, if_neg e8, if_neg e9, if_neg e10, if_neg e11, if_neg e12,
        if_neg e13, if_neg e14, if_neg e15, if_neg e16, if_neg e17] at h
      simp at h
    · intro hmem
      simp only [amd64Regs, List.mem_cons, List.not_mem_nil, or_false] at hmem
      simp only [GetRegisterValue, GetRegisterValueAMD64]
      rcases hmem with e | e | e | e | e | e | e | e | e | e | e | e | e | e |
        e | e | e <;> subst e <;> rfl
  · constructor
    · intro h
      by_contra hmem
      simp only [amd64Segs, List.mem_cons, List.not_mem_nil, or_false,
        not_or] at hmem
      obtain ⟨e1, e2⟩ := hmem
      simp only [GetSegmentAddress, GetSegmentAddressAMD64] at h
      rw [if_neg e1, if_neg e2] at h
      simp at h
    · intro hmem
      simp only [amd64Segs, List.mem_cons, List.not_mem_nil, or_false] at hmem
      simp only [GetSegmentAddress, GetSegmentAddressAMD64]
      rcases hmem with e | e <;> subst e <;> rfl

/-- C3 (witness): outside the x86 set the resolver fails rather than
defaulting, and on `esi` it returns the stored value. -/
theorem c3_witness :
    ¬(GetRegisterValue (DumpContext.x86 ctxC2) "foo").isSome = true ∧
      GetRegisterValue (DumpContext.x86 ctxC2) "esi" = some 0x1000 := by
  constructor
  · intro h
    exact absurd ((c3_lookup_total "foo" ctxC2 ctxA).1.mp h) (by decide)
  · exact (c3_lookup_total "esi" ctxC2 ctxA).2.2.2.2.2.2.2.2.2.1

/-- C10 (witness): instantiated on the whitespace-only instruction `" "`. -/
theorem c10_witness :
    TokenizeInstruction " " = some ("", "", "") ∧
      CalculateAddress (DumpContext.x86 ctxC2) "" = none :=
  c10_whitespace_tokenizes_empty " " (DumpContext.x86 ctxC2) (by decide)

end Breakpad
